import Mathlib

/-!
Shallow embedding of the dynamic-filter engine (src/utils/filterUtils.ts of
the dynamic-filter repository) together with proofs of its specified
properties.

Modelling conventions:
* JavaScript runtime values are modelled by the inductive `JSVal`
  (undefined, null, boolean, number, string, array, plain object).
* JavaScript numbers are modelled by `JNum`: an integer or `NaN`.
  Non-integral floats do not occur in the filter data and are out of the
  modelled scope.
* Code that can throw (property access on null/undefined, calling a string
  method on a non-string) is modelled in the `Except Unit` monad; `.error ()`
  is a thrown TypeError.
* `Date` values are modelled as millisecond timestamps (`JNum`, `NaN` for an
  invalid date).  String parsing is modelled for the date-only ISO form
  `YYYY-MM-DD` produced by the UI's date inputs (parsed as UTC midnight per
  ECMA-262); other string forms are treated as invalid.  The local timezone
  is assumed to be UTC, so `setHours(0,0,0,0)` floors a timestamp to its day
  and `setHours(23,59,59,999)` moves it to the last millisecond of its day.
-/

/-- A JavaScript number: an integer, or NaN. -/
inductive JNum where
  | nan : JNum
  | int : Int → JNum
deriving DecidableEq

/-- A JavaScript runtime value. -/
inductive JSVal where
  | vUndefined : JSVal
  | vNull : JSVal
  | vBool : Bool → JSVal
  | vNum : JNum → JSVal
  | vStr : String → JSVal
  | vArr : List JSVal → JSVal
  | vObj : List (String × JSVal) → JSVal

mutual

/-- JavaScript strict equality (the SameValueZero variant used by
`Array.prototype.includes`): structural equality of values, with `NaN`
equal to itself.  Primitive of the embedding. -/
def jsEq : JSVal → JSVal → Bool
  | .vUndefined, .vUndefined => true
  | .vNull, .vNull => true
  | .vBool a, .vBool b => a == b
  | .vNum a, .vNum b => a == b
  | .vStr a, .vStr b => a == b
  | .vArr a, .vArr b => jsEqList a b
  | .vObj a, .vObj b => jsEqFields a b
  | _, _ => false

/-- Elementwise `jsEq` on arrays. -/
def jsEqList : List JSVal → List JSVal → Bool
  | [], [] => true
  | a :: as, b :: bs => jsEq a b && jsEqList as bs
  | _, _ => false

/-- Elementwise `jsEq` on object field lists. -/
def jsEqFields : List (String × JSVal) → List (String × JSVal) → Bool
  | [], [] => true
  | (k, v) :: as, (l, w) :: bs => k == l && jsEq v w && jsEqFields as bs
  | _, _ => false

end

/-- The Boolean test `jsEq` decides propositional equality of `JSVal`s:
on the modelled value space, SameValueZero coincides with structural
equality. -/
theorem jsEq_iff : ∀ a b : JSVal, jsEq a b = true ↔ a = b := by
  refine jsEq.induct (fun a b => jsEq a b = true ↔ a = b)
    (fun a b => jsEqFields a b = true ↔ a = b)
    (fun a b => jsEqList a b = true ↔ a = b)
    ?_ ?_ ?_ ?_ ?_ ?_ ?_ ?_ ?_ ?_ ?_ ?_ ?_ ?_
  · simp [jsEq]
  · simp [jsEq]
  · intro a b; simp [jsEq]
  · intro a b; simp [jsEq]
  · intro a b; simp [jsEq]
  · intro a b ih; simp [jsEq, ih]
  · intro a b ih; simp [jsEq, ih]
  · intro t x h1 h2 h3 h4 h5 h6 h7
    cases t <;> cases x <;> simp_all [jsEq]
  · simp [jsEqList]
  · intro a as b bs ih1 ih2; simp [jsEqList, ih1, ih2]
  · intro t x h1 h2
    match t, x with
    | [], [] => exact absurd rfl (fun h => h1 h rfl)
    | [], b :: bs => simp [jsEqList]
    | a :: as, [] => simp [jsEqList]
    | a :: as, b :: bs => exact (h2 a as b bs rfl rfl).elim
  · simp [jsEqFields]
  · intro k v as l w bs ih1 ih2; simp [jsEqFields, ih1, ih2]
  · intro t x h1 h2
    match t, x with
    | [], [] => exact absurd rfl (fun h => h1 h rfl)
    | [], (l, w) :: bs => simp [jsEqFields]
    | (k, v) :: as, [] => simp [jsEqFields]
    | (k, v) :: as, (l, w) :: bs => exact (h2 k v as l w bs rfl rfl).elim

instance : DecidableEq JSVal := fun a b => decidable_of_iff _ (jsEq_iff a b)

/-- Truthiness of a value under the null/undefined test used throughout the
engine (`value === null || value === undefined`). -/
def isNullish : JSVal → Bool
  | .vUndefined => true
  | .vNull => true
  | _ => false

/-- Split a character list at every occurrence of `sep` (JavaScript
`String.prototype.split` with a one-character separator); the result is
always non-empty and splitting the empty string gives `[[]]`. -/
def splitOnChar (sep : Char) : List Char → List (List Char)
  | [] => [[]]
  | c :: cs =>
    if c = sep then [] :: splitOnChar sep cs
    else
      match splitOnChar sep cs with
      | [] => [[c]]
      | h :: t => (c :: h) :: t

/-- JavaScript `s.split(sep)` for a one-character separator. -/
def strSplitOnChar (sep : Char) (s : String) : List String :=
  (splitOnChar sep s.data).map String.mk

/-- JavaScript `s.toLowerCase()` on the modelled (ASCII-oriented)
character space. -/
def strToLower (s : String) : String := ⟨s.data.map Char.toLower⟩

/-- JavaScript `s.trim()`: strip whitespace from both ends. -/
def strTrim (s : String) : String :=
  ⟨((s.data.dropWhile Char.isWhitespace).reverse.dropWhile Char.isWhitespace).reverse⟩

/-- Value of a list of decimal digit characters. -/
def digitsToNat (l : List Char) : Nat :=
  l.foldl (fun acc c => acc * 10 + (c.toNat - 48)) 0

/-- Parse an optionally-signed decimal integer literal. -/
def parseIntChars (l : List Char) : Option Int :=
  match l with
  | '-' :: rest =>
    if rest ≠ [] && rest.all Char.isDigit then some (-(digitsToNat rest : Int))
    else none
  | _ =>
    if l ≠ [] && l.all Char.isDigit then some (digitsToNat l : Int)
    else none

/-- JavaScript `Array.prototype.join` on already-stringified elements. -/
def strJoin (sep : String) : List String → String
  | [] => ""
  | [x] => x
  | x :: y :: t => x ++ sep ++ strJoin sep (y :: t)

mutual

/-- JavaScript string coercion `String(value)` on the modelled value space
(arrays join their elements with `,`, with null/undefined elements printed
as the empty string; plain objects print as `[object Object]`). -/
def jsToString : JSVal → String
  | .vUndefined => "undefined"
  | .vNull => "null"
  | .vBool true => "true"
  | .vBool false => "false"
  | .vNum .nan => "NaN"
  | .vNum (.int i) => toString i
  | .vStr s => s
  | .vArr xs => strJoin "," (jsStrList xs)
  | .vObj _ => "[object Object]"

/-- String forms of the elements of an array, for `Array.prototype.join`. -/
def jsStrList : List JSVal → List String
  | [] => []
  | .vUndefined :: xs => "" :: jsStrList xs
  | .vNull :: xs => "" :: jsStrList xs
  | x :: xs => jsToString x :: jsStrList xs

end

/-- JavaScript `ToNumber` on a string: ignoring surrounding whitespace, the
empty string is `0`, an optional-sign digit string is that integer, and
anything else is `NaN` (non-integer numeric literals are out of the modelled
scope). -/
def parseJSNumber (s : String) : JNum :=
  let t := (strTrim s).data
  if t = [] then .int 0
  else
    match parseIntChars t with
    | some i => .int i
    | none => .nan

/-- JavaScript number coercion `Number(value)` (arrays coerce through their
string form, per ToPrimitive). -/
def jsToNumber : JSVal → JNum
  | .vUndefined => .nan
  | .vNull => .int 0
  | .vBool b => .int (if b then 1 else 0)
  | .vNum n => n
  | .vStr s => parseJSNumber s
  | .vArr xs => parseJSNumber (jsToString (.vArr xs))
  | .vObj _ => .nan

/-- JavaScript boolean coercion `Boolean(value)` (truthiness). -/
def jsToBool : JSVal → Bool
  | .vUndefined => false
  | .vNull => false
  | .vBool b => b
  | .vNum .nan => false
  | .vNum (.int i) => i != 0
  | .vStr s => s ≠ ""
  | .vArr _ => true
  | .vObj _ => true

/-- The global `isNaN`, which coerces its argument to a number first. -/
def jsIsNaN (v : JSVal) : Bool :=
  match jsToNumber v with
  | .nan => true
  | .int _ => false

/-- NaN test on an already-coerced number. -/
def jnIsNaN : JNum → Bool
  | .nan => true
  | .int _ => false

/-- Numeric `<=`; any comparison involving NaN is false. -/
def jnLe : JNum → JNum → Bool
  | .int a, .int b => a ≤ b
  | _, _ => false

/-- Numeric `<`; any comparison involving NaN is false. -/
def jnLt : JNum → JNum → Bool
  | .int a, .int b => a < b
  | _, _ => false

/-- Strict equality `===` between two numbers (NaN is not equal to itself). -/
def jnStrictEq : JNum → JNum → Bool
  | .int a, .int b => a == b
  | _, _ => false

/-- JavaScript `ToPrimitive` on the modelled values: arrays and objects are
replaced by their string form, everything else is already primitive. -/
def toPrimitive (v : JSVal) : JSVal :=
  match v with
  | .vArr xs => .vStr (jsToString (.vArr xs))
  | .vObj fs => .vStr (jsToString (.vObj fs))
  | v => v

/-- The abstract relational comparison behind JavaScript `<=`: after
ToPrimitive, two strings compare lexicographically, any other pair compares
numerically (false if either side is NaN). -/
def jsLe (a b : JSVal) : Bool :=
  match toPrimitive a, toPrimitive b with
  | .vStr s, .vStr t => decide (s ≤ t)
  | pa, pb => jnLe (jsToNumber pa) (jsToNumber pb)

/-- Property read `v[p]` on a value that is not null/undefined: field lookup
on an object, `undefined` otherwise (built-in properties of primitives are
out of the modelled scope). -/
def getProp (v : JSVal) (p : String) : JSVal :=
  match v with
  | .vObj fs =>
    match fs.lookup p with
    | some x => x
    | none => .vUndefined
  | _ => .vUndefined

/-- Plain property access `v.p`: throws a TypeError when `v` is
null/undefined. -/
def getPropE (v : JSVal) (p : String) : Except Unit JSVal :=
  if isNullish v then .error () else .ok (getProp v p)

/-- Optional-chaining access `v?.[p]`: `undefined` instead of a throw when
`v` is null/undefined. -/
def optGet (v : JSVal) (p : String) : JSVal :=
  if isNullish v then .vUndefined else getProp v p

/-- Method call `v.toLowerCase()`: defined on strings, a TypeError on
anything else. -/
def jsToLowerCase : JSVal → Except Unit String
  | .vStr s => .ok (strToLower s)
  | _ => .error ()

/-- Method call `v.trim()`: defined on strings, a TypeError on anything
else. -/
def jsTrim : JSVal → Except Unit String
  | .vStr s => .ok (strTrim s)
  | _ => .error ()

/-- Test whether the character list `p` is an initial segment of `s`
(JavaScript `String.prototype.startsWith`). -/
def startsL : List Char → List Char → Bool
  | [], _ => true
  | _ :: _, [] => false
  | a :: p, b :: s => a == b && startsL p s

/-- Test whether the character list `t` occurs contiguously inside `s`
(JavaScript `String.prototype.includes`). -/
def containsL (t : List Char) : List Char → Bool
  | [] => startsL t []
  | a :: s => startsL t (a :: s) || containsL t s

/-- JavaScript `s.includes(t)`. -/
def strIncludes (s t : String) : Bool := containsL t.data s.data

/-- JavaScript `s.startsWith(p)`. -/
def strStarts (s p : String) : Bool := startsL p.data s.data

/-- JavaScript `s.endsWith(p)`. -/
def strEnds (s p : String) : Bool := startsL p.data.reverse s.data.reverse

/-- Milliseconds in one day. -/
def msPerDay : Int := 86400000

/-- Gregorian leap-year test. -/
def isLeapYear (y : Nat) : Bool :=
  (y % 4 == 0 && y % 100 != 0) || y % 400 == 0

/-- Number of days in month `m` (1-12) of year `y`. -/
def daysInMonth (y m : Nat) : Nat :=
  if m = 2 then (if isLeapYear y then 29 else 28)
  else if m = 4 ∨ m = 6 ∨ m = 9 ∨ m = 11 then 30
  else 31

/-- Days from 1970-01-01 to the civil date `y`-`m`-`d` (proleptic Gregorian
calendar, `y` between 0 and 9999 as produced by a 4-digit year). -/
def daysFromCivil (y m d : Nat) : Int :=
  let ya : Int := if m ≤ 2 then (y : Int) - 1 else (y : Int)
  let era : Int := (if 0 ≤ ya then ya else ya - 399) / 400
  let yoe : Int := ya - era * 400
  let mp : Int := ((m : Int) + 9) % 12
  let doy : Int := (153 * mp + 2) / 5 + (d : Int) - 1
  let doe : Int := yoe * 365 + yoe / 4 - yoe / 100 + doy
  era * 146097 + doe - 719468

/-- JavaScript date parsing (`new Date(string)` / `Date.parse`), restricted
to the date-only ISO form `YYYY-MM-DD` that the UI's date inputs produce;
such a string denotes UTC midnight of that day (ECMA-262), and out-of-range
components give an invalid date.  Any other string form is out of the
modelled scope and treated as invalid. -/
def parseDateString (s : String) : JNum :=
  match splitOnChar '-' s.data with
  | [ys, ms, ds] =>
    if ys.length = 4 && ms.length = 2 && ds.length = 2
        && ys.all Char.isDigit && ms.all Char.isDigit && ds.all Char.isDigit then
      let y := digitsToNat ys
      let m := digitsToNat ms
      let d := digitsToNat ds
      if 1 ≤ m && m ≤ 12 && 1 ≤ d && d ≤ daysInMonth y m then
        .int (daysFromCivil y m d * msPerDay)
      else .nan
    else .nan
  | _ => .nan

/-- The `Date` constructor `new Date(v)` as a millisecond timestamp:
numbers are timestamps, strings are parsed, `null` and booleans coerce
through their numeric value, `undefined` is invalid, arrays and objects
coerce through their string form. -/
def jsNewDate : JSVal → JNum
  | .vNull => .int 0
  | .vUndefined => .nan
  | .vBool b => .int (if b then 1 else 0)
  | .vNum n => n
  | .vStr s => parseDateString s
  | .vArr xs => parseDateString (jsToString (.vArr xs))
  | .vObj fs => parseDateString (jsToString (.vObj fs))

/-- Midnight (00:00:00.000) of the day containing timestamp `t`, i.e.
`setHours(0, 0, 0, 0)` under the UTC-timezone assumption. -/
def dayFloor (t : Int) : Int := t - t % msPerDay

/-- The timestamp `setHours(0,0,0,0)` lifted to possibly-invalid dates. -/
def jnStartOfDay : JNum → JNum
  | .nan => .nan
  | .int t => .int (dayFloor t)

/-- The timestamp `setHours(23,59,59,999)` lifted to possibly-invalid
dates: the last millisecond of the day. -/
def jnEndOfDay : JNum → JNum
  | .nan => .nan
  | .int t => .int (dayFloor t + (msPerDay - 1))

/-- A filter condition as the engine receives it at runtime: the `value`
payload is kept dynamic because the source casts it unchecked
(`condition.value as ...FilterValue`). -/
structure FilterCondition where
  id : String
  field : String
  operator : String
  fieldType : String
  value : JSVal
deriving DecidableEq

/-- Get nested value from object using dot notation path: the source's
`getNestedValue`, `path.split('.').reduce((current, prop) =>
current?.[prop], obj)`. -/
def getNestedValue (obj : JSVal) (path : String) : JSVal :=
  (strSplitOnChar '.' path).foldl optGet obj

/-- The source's `applyTextFilter`.  Note the unguarded
`filterValue.value.toLowerCase()`: it throws when the payload is
null/undefined or its `value` property is not a string. -/
def applyTextFilter (value : JSVal) (operator : String) (filterValue : JSVal) :
    Except Unit Bool := do
  if isNullish value then return false
  let stringValue := strToLower (jsToString value)
  let fv ← getPropE filterValue "value"
  let searchValue ← jsToLowerCase fv
  match operator with
  | "equals" => return stringValue == searchValue
  | "contains" => return strIncludes stringValue searchValue
  | "startsWith" => return strStarts stringValue searchValue
  | "endsWith" => return strEnds stringValue searchValue
  | "doesNotContain" => return !strIncludes stringValue searchValue
  | _ => return false

/-- The source's `applyNumberFilter`. -/
def applyNumberFilter (value : JSVal) (operator : String) (filterValue : JSVal) :
    Except Unit Bool := do
  if isNullish value then return false
  let numValue := jsToNumber value
  let filterNum ← getPropE filterValue "value"
  if jnIsNaN numValue || jsIsNaN filterNum then return false
  match operator with
  | "equals" =>
    return (match filterNum with
      | .vNum n => jnStrictEq numValue n
      | _ => false)
  | "greaterThan" => return jnLt (jsToNumber filterNum) numValue
  | "lessThan" => return jnLt numValue (jsToNumber filterNum)
  | "greaterThanOrEqual" => return jnLe (jsToNumber filterNum) numValue
  | "lessThanOrEqual" => return jnLe numValue (jsToNumber filterNum)
  | _ => return false

/-- The source's `applyDateFilter`: parse the record value and both bounds
as dates, fail closed on any invalid date, and for `between` widen the
bounds to the whole calendar days before the inclusive range test. -/
def applyDateFilter (value : JSVal) (operator : String) (filterValue : JSVal) :
    Except Unit Bool := do
  if isNullish value then return false
  let dateValue := jsNewDate value
  let sv ← getPropE filterValue "startDate"
  let ev ← getPropE filterValue "endDate"
  let startDate := jsNewDate sv
  let endDate := jsNewDate ev
  if jnIsNaN dateValue || jnIsNaN startDate || jnIsNaN endDate then return false
  match operator with
  | "between" =>
    return jnLe (jnStartOfDay startDate) dateValue
      && jnLe dateValue (jnEndOfDay endDate)
  | _ => return false

/-- The source's `applyAmountFilter`: a plain inclusive numeric range with
no day-boundary adjustment. -/
def applyAmountFilter (value : JSVal) (operator : String) (filterValue : JSVal) :
    Except Unit Bool := do
  if isNullish value then return false
  let numValue := jsToNumber value
  let minAmount ← getPropE filterValue "minAmount"
  let maxAmount ← getPropE filterValue "maxAmount"
  if jnIsNaN numValue || jsIsNaN minAmount || jsIsNaN maxAmount then return false
  match operator with
  | "between" =>
    return jnLe (jsToNumber minAmount) numValue
      && jnLe numValue (jsToNumber maxAmount)
  | _ => return false

/-- The source's `applySingleSelectFilter`: `String(value)` compared to the
payload's `value` by strict equality. -/
def applySingleSelectFilter (value : JSVal) (operator : String) (filterValue : JSVal) :
    Except Unit Bool := do
  if isNullish value then return false
  let stringValue := jsToString value
  let selectedValue ← getPropE filterValue "value"
  match operator with
  | "is" =>
    return (match selectedValue with
      | .vStr s => stringValue == s
      | _ => false)
  | "isNot" =>
    return !(match selectedValue with
      | .vStr s => stringValue == s
      | _ => false)
  | _ => return false

/-- JavaScript `xs.includes(v)` (SameValueZero membership). -/
def jsIncludes (xs : List JSVal) (v : JSVal) : Bool := xs.any (jsEq · v)

/-- The source's `applyMultiSelectFilter`: both the record value and the
payload's `values` must be arrays and the latter non-empty, otherwise
`false`; `in` asks whether the record's array contains ANY of the selected
values, `notIn` whether it contains NONE. -/
def applyMultiSelectFilter (value : JSVal) (operator : String) (filterValue : JSVal) :
    Except Unit Bool := do
  match value with
  | .vArr xs => do
    let fvs ← getPropE filterValue "values"
    match fvs with
    | .vArr vs =>
      if vs.length = 0 then return false
      else
        match operator with
        | "in" => return vs.any (fun selectedValue => jsIncludes xs selectedValue)
        | "notIn" => return !vs.any (fun selectedValue => jsIncludes xs selectedValue)
        | _ => return false
    | _ => return false
  | _ => return false

/-- The source's `applyBooleanFilter`: `Boolean(value) === filterValue.value`
(the payload is only read inside the `is` arm). -/
def applyBooleanFilter (value : JSVal) (operator : String) (filterValue : JSVal) :
    Except Unit Bool := do
  if isNullish value then return false
  match operator with
  | "is" => do
    let fv ← getPropE filterValue "value"
    return (match fv with
      | .vBool b => jsToBool value == b
      | _ => false)
  | _ => return false

/-- JavaScript `a || b` on an optional string and a string (the empty
string is falsy). -/
def jsOrStr (a : Option String) (b : String) : String :=
  match a with
  | some s => if s = "" then b else s
  | none => b

/-- The source's `applyFilterCondition`: resolve the effective path, read
the record's value, dispatch on the field-type tag (unknown tags fail
closed). -/
def applyFilterCondition (employee : JSVal) (condition : FilterCondition)
    (fieldPath : Option String) : Except Unit Bool :=
  let path := jsOrStr fieldPath condition.field
  let fieldValue := getNestedValue employee path
  match condition.fieldType with
  | "text" => applyTextFilter fieldValue condition.operator condition.value
  | "number" => applyNumberFilter fieldValue condition.operator condition.value
  | "date" => applyDateFilter fieldValue condition.operator condition.value
  | "amount" => applyAmountFilter fieldValue condition.operator condition.value
  | "singleSelect" => applySingleSelectFilter fieldValue condition.operator condition.value
  | "multiSelect" => applyMultiSelectFilter fieldValue condition.operator condition.value
  | "boolean" => applyBooleanFilter fieldValue condition.operator condition.value
  | _ => .ok false

/-- `Array.prototype.every` with a callback that can throw: elements are
tested left to right, stopping at the first `false`; a thrown exception
propagates. -/
def allME {α : Type} (p : α → Except Unit Bool) : List α → Except Unit Bool
  | [] => .ok true
  | x :: xs =>
    match p x with
    | .error e => .error e
    | .ok true => allME p xs
    | .ok false => .ok false

/-- `Array.prototype.filter` with a callback that can throw: the callback
runs on every element in order; a thrown exception propagates. -/
def filterME {α : Type} (p : α → Except Unit Bool) : List α → Except Unit (List α)
  | [] => .ok []
  | x :: xs =>
    match p x with
    | .error e => .error e
    | .ok b =>
      match filterME p xs with
      | .error e => .error e
      | .ok rest => .ok (if b then x :: rest else rest)

/-- The source's `filterEmployees` (the spec's `filterRecords`): empty
condition list is the identity, otherwise keep the records on which every
condition holds (AND logic), looking up each condition's path in the
field-path map. -/
def filterEmployees (employees : List JSVal) (conditions : List FilterCondition)
    (fieldPaths : List (String × String)) : Except Unit (List JSVal) :=
  if conditions.length = 0 then
    .ok employees
  else
    filterME (fun employee =>
      allME (fun condition =>
        applyFilterCondition employee condition (fieldPaths.lookup condition.field))
        conditions)
      employees

/-- Body of the source's `isValidFilterCondition` before its `try/catch`:
the structural checks, with the payload property reads that can throw. -/
def isValidBody (condition : FilterCondition) : Except Unit Bool := do
  match condition.fieldType with
  | "text" =>
    let v ← getPropE condition.value "value"
    if jsToBool v then
      let s ← jsTrim v
      return decide (s.length > 0)
    else
      return false
  | "number" =>
    let v ← getPropE condition.value "value"
    return !jsIsNaN v
  | "date" =>
    let sv ← getPropE condition.value "startDate"
    let ev ← getPropE condition.value "endDate"
    let startDate := jsNewDate sv
    let endDate := jsNewDate ev
    return !jnIsNaN startDate && !jnIsNaN endDate && jnLe startDate endDate
  | "amount" =>
    let mn ← getPropE condition.value "minAmount"
    let mx ← getPropE condition.value "maxAmount"
    return !jsIsNaN mn && !jsIsNaN mx && jsLe mn mx
  | "singleSelect" =>
    let v ← getPropE condition.value "value"
    return jsToBool v
  | "multiSelect" =>
    let v ← getPropE condition.value "values"
    return (match v with
      | .vArr xs => decide (xs.length > 0)
      | _ => false)
  | "boolean" =>
    let v ← getPropE condition.value "value"
    return (match v with
      | .vBool _ => true
      | _ => false)
  | _ => return false

/-- The source's `isValidFilterCondition` (the spec's `isValidCondition`):
the structural checks wrapped in `try { ... } catch { return false }`. -/
def isValidFilterCondition (condition : FilterCondition) : Bool :=
  match isValidBody condition with
  | .ok b => b
  | .error _ => false

/-! Basic reduction lemmas for the `Except Unit` monad and evaluation
helpers. -/

@[simp]
theorem exceptBind_ok {α β : Type} (a : α) (f : α → Except Unit β) :
    (Except.ok a >>= f : Except Unit β) = f a := rfl

@[simp]
theorem exceptBind_error {α β : Type} (e : Unit) (f : α → Except Unit β) :
    ((Except.error e : Except Unit α) >>= f : Except Unit β) = .error e := rfl

@[simp]
theorem exceptPure_eq_ok {α : Type} (a : α) :
    (pure a : Except Unit α) = .ok a := rfl

/-- Whether an evaluation completed normally with result `true`. -/
def okTrue : Except Unit Bool → Bool
  | .ok true => true
  | _ => false

@[simp]
theorem okTrue_eq_true_iff (e : Except Unit Bool) :
    okTrue e = true ↔ e = .ok true := by
  cases e with
  | error u => simp [okTrue]
  | ok b => cases b <;> simp [okTrue]

/-! Characterisations of the modelled string primitives. -/

theorem startsL_iff : ∀ (p s : List Char),
    startsL p s = true ↔ ∃ rest, s = p ++ rest
  | [], s => by simp [startsL]
  | _ :: _, [] => by simp [startsL]
  | a :: p, b :: s => by
    rw [startsL, Bool.and_eq_true, beq_iff_eq, startsL_iff p s]
    constructor
    · rintro ⟨rfl, rest, rfl⟩
      exact ⟨rest, rfl⟩
    · rintro ⟨rest, h⟩
      rw [List.cons_append, List.cons.injEq] at h
      exact ⟨h.1.symm, rest, h.2⟩

theorem containsL_iff : ∀ (t s : List Char),
    containsL t s = true ↔ ∃ pre post, s = pre ++ t ++ post
  | t, [] => by
    cases t <;> simp [containsL, startsL]
  | t, a :: s => by
    rw [containsL, Bool.or_eq_true, startsL_iff, containsL_iff t s]
    constructor
    · rintro (⟨rest, h⟩ | ⟨pre, post, rfl⟩)
      · exact ⟨[], rest, by simpa using h⟩
      · exact ⟨a :: pre, post, by simp⟩
    · rintro ⟨pre, post, h⟩
      match pre, h with
      | [], h => exact Or.inl ⟨post, by simpa using h⟩
      | x :: pre', h =>
        rw [List.cons_append, List.cons_append, List.cons.injEq] at h
        exact Or.inr ⟨pre', post, h.2⟩

theorem strIncludes_iff (s t : String) :
    strIncludes s t = true ↔ ∃ pre post, s.data = pre ++ t.data ++ post :=
  containsL_iff t.data s.data

theorem strStarts_iff (s p : String) :
    strStarts s p = true ↔ ∃ rest, s.data = p.data ++ rest :=
  startsL_iff p.data s.data

theorem strEnds_iff (s p : String) :
    strEnds s p = true ↔ ∃ pre, s.data = pre ++ p.data := by
  rw [strEnds, startsL_iff]
  constructor
  · rintro ⟨rest, h⟩
    refine ⟨rest.reverse, ?_⟩
    have h2 := congrArg List.reverse h
    simpa using h2
  · rintro ⟨pre, h⟩
    exact ⟨pre.reverse, by rw [h]; simp⟩

/-! Properties of the exception-aware `every` and `filter`. -/

theorem allME_eq_ok_true_iff {α : Type} (p : α → Except Unit Bool) :
    ∀ l : List α, allME p l = .ok true ↔ ∀ x ∈ l, p x = .ok true
  | [] => by simp [allME]
  | x :: xs => by
    rw [allME]
    cases h : p x with
    | error e => simp [h]
    | ok b =>
      cases b
      · simp [h]
      · simp [h, allME_eq_ok_true_iff p xs]

theorem allME_singleton {α : Type} (p : α → Except Unit Bool) (x : α) :
    allME p [x] = p x := by
  rw [allME]
  cases h : p x with
  | error e => rfl
  | ok b => cases b <;> simp [allME]

theorem allME_total {α : Type} (p : α → Except Unit Bool) :
    ∀ l : List α, (∀ x ∈ l, ∃ b, p x = .ok b) → ∃ b, allME p l = .ok b
  | [], _ => ⟨true, rfl⟩
  | x :: xs, h => by
    obtain ⟨b, hb⟩ := h x (List.mem_cons_self x xs)
    rw [allME, hb]
    cases b
    · exact ⟨false, rfl⟩
    · exact allME_total p xs (fun y hy => h y (List.mem_cons_of_mem x hy))

theorem filterME_eq_filter {α : Type} (p : α → Except Unit Bool) :
    ∀ l : List α, (∀ x ∈ l, ∃ b, p x = .ok b) →
      filterME p l = .ok (l.filter (fun x => okTrue (p x)))
  | [], _ => rfl
  | x :: xs, h => by
    obtain ⟨b, hb⟩ := h x (List.mem_cons_self x xs)
    rw [filterME, hb,
      filterME_eq_filter p xs (fun y hy => h y (List.mem_cons_of_mem x hy))]
    cases b <;> simp [List.filter_cons, hb, okTrue]

theorem filterME_comp {α : Type} (P Q : α → Except Unit Bool) :
    ∀ l : List α,
      filterME (fun x =>
        match P x with
        | .error e => .error e
        | .ok true => Q x
        | .ok false => .ok false) l
      = (filterME P l).bind (filterME Q)
  | [] => rfl
  | x :: l => by
    have ih := filterME_comp P Q l
    rw [filterME, filterME]
    cases hP : P x with
    | error e => rfl
    | ok bP =>
      cases bP
      · -- the first condition rejects the record
        rw [ih]
        cases hPl : filterME P l with
        | error e => rfl
        | ok rest =>
          show (match filterME Q rest with
            | .error e => (Except.error e : Except Unit (List α))
            | .ok r => .ok r) = filterME Q rest
          cases filterME Q rest <;> rfl
      · -- the first condition accepts the record; the second one decides
        cases hQ : Q x with
        | error e =>
          cases hPl : filterME P l with
          | error e2 =>
            cases e; cases e2; rfl
          | ok rest =>
            show (Except.error e : Except Unit (List α)) = filterME Q (x :: rest)
            rw [filterME, hQ]
        | ok bQ =>
          rw [ih]
          cases hPl : filterME P l with
          | error e => rfl
          | ok rest =>
            show (match filterME Q rest with
              | .error e => (Except.error e : Except Unit (List α))
              | .ok r => .ok (if bQ then x :: r else r)) = filterME Q (x :: rest)
            rw [filterME, hQ]

/-! Arithmetic facts about the day normalization used by the date family. -/

theorem dayFloor_le (t : Int) : dayFloor t ≤ t := by
  show t - t % 86400000 ≤ t
  omega

theorem le_dayFloor_add (t : Int) : t ≤ dayFloor t + (msPerDay - 1) := by
  show t ≤ t - t % 86400000 + (86400000 - 1)
  omega

theorem dayFloor_mono {a b : Int} (h : a ≤ b) : dayFloor a ≤ dayFloor b := by
  show a - a % 86400000 ≤ b - b % 86400000
  omega

/-- Unfolding of the filter executor on a non-empty condition list. -/
theorem filterEmployees_cons (records : List JSVal) (c : FilterCondition)
    (cs : List FilterCondition) (fieldPaths : List (String × String)) :
    filterEmployees records (c :: cs) fieldPaths
      = filterME (fun employee =>
          allME (fun condition =>
            applyFilterCondition employee condition (fieldPaths.lookup condition.field))
            (c :: cs))
          records := by
  simp [filterEmployees]

/-- C5.  For every record collection and every field-path map, applying
`filterRecords` with an empty condition list returns the collection itself:
same elements, same order (identity). -/
theorem filterEmployees_empty_identity (records : List JSVal)
    (fieldPaths : List (String × String)) :
    filterEmployees records [] fieldPaths = .ok records := rfl

/-- C6.  For all records R, conditions C1 and C2, and path map P,
`filterRecords(R, [C1, C2], P)` equals the sequential composition
`filterRecords(filterRecords(R, [C1], P), [C2], P)`: AND-combination
decomposes into sequential application of the single-condition filters
(composition in the exception monad, since evaluation may throw). -/
theorem filterEmployees_and_decomposes (records : List JSVal)
    (c1 c2 : FilterCondition) (fieldPaths : List (String × String)) :
    filterEmployees records [c1, c2] fieldPaths
      = (filterEmployees records [c1] fieldPaths).bind
          (fun records2 => filterEmployees records2 [c2] fieldPaths) := by
  rw [filterEmployees_cons]
  have h2 : (fun records2 => filterEmployees records2 [c2] fieldPaths)
      = filterME (fun employee =>
          applyFilterCondition employee c2 (fieldPaths.lookup c2.field)) := by
    funext records2
    rw [filterEmployees_cons]
    congr 1
    funext employee
    exact allME_singleton _ c2
  have h1 : filterEmployees records [c1] fieldPaths
      = filterME (fun employee =>
          applyFilterCondition employee c1 (fieldPaths.lookup c1.field)) records := by
    rw [filterEmployees_cons]
    congr 1
    funext employee
    exact allME_singleton _ c1
  rw [h2, h1]
  have hcomb : (fun employee =>
      allME (fun condition =>
        applyFilterCondition employee condition (fieldPaths.lookup condition.field))
        [c1, c2])
      = fun employee =>
          match applyFilterCondition employee c1 (fieldPaths.lookup c1.field) with
          | .error e => .error e
          | .ok true => applyFilterCondition employee c2 (fieldPaths.lookup c2.field)
          | .ok false => .ok false := by
    funext employee
    rw [allME]
    cases h : applyFilterCondition employee c1 (fieldPaths.lookup c1.field) with
    | error e => rfl
    | ok b =>
      cases b
      · rfl
      · exact allME_singleton _ c2
  rw [hcomb]
  exact filterME_comp _ _ records

/-- C7.  If the field resolver returns an absent value (missing or null)
for a record/path pair, the condition referencing that path evaluates to
`false` — for every field type and every operator, with no exception. -/
theorem applyFilterCondition_absent_false (employee : JSVal)
    (condition : FilterCondition) (fieldPath : Option String)
    (habs : isNullish (getNestedValue employee (jsOrStr fieldPath condition.field)) = true) :
    applyFilterCondition employee condition fieldPath = .ok false := by
  cases hv : getNestedValue employee (jsOrStr fieldPath condition.field) with
  | vUndefined =>
    simp only [applyFilterCondition, hv]
    split <;> rfl
  | vNull =>
    simp only [applyFilterCondition, hv]
    split <;> rfl
  | vBool b => rw [hv] at habs; simp [isNullish] at habs
  | vNum n => rw [hv] at habs; simp [isNullish] at habs
  | vStr s => rw [hv] at habs; simp [isNullish] at habs
  | vArr xs => rw [hv] at habs; simp [isNullish] at habs
  | vObj fs => rw [hv] at habs; simp [isNullish] at habs

/-- Closed instance of C7: a record without the `department` field is
excluded by a singleSelect condition on that field. -/
theorem applyFilterCondition_absent_false_witness :
    applyFilterCondition (.vObj [("name", .vStr "Ann")])
      ⟨"c1", "department", "is", "singleSelect", .vObj [("value", .vStr "HR")]⟩
      none = .ok false :=
  applyFilterCondition_absent_false _ _ _ rfl

/-! Throw-freedom of the predicate families on payloads of the right
shape. -/

theorem applyTextFilter_ok (value : JSVal) (op : String) (pv : JSVal) (s : String)
    (hp : isNullish pv = false) (hs : getProp pv "value" = .vStr s) :
    ∃ b, applyTextFilter value op pv = .ok b := by
  cases hnv : isNullish value with
  | true => exact ⟨false, by simp [applyTextFilter, hnv]⟩
  | false =>
    simp only [applyTextFilter, hnv, getPropE, hp, hs, jsToLowerCase,
      Bool.false_eq_true, if_false, exceptBind_ok, exceptPure_eq_ok]
    split <;> exact ⟨_, rfl⟩

theorem applyNumberFilter_ok (value : JSVal) (op : String) (pv : JSVal)
    (hp : isNullish pv = false) :
    ∃ b, applyNumberFilter value op pv = .ok b := by
  cases hnv : isNullish value with
  | true => exact ⟨false, by simp [applyNumberFilter, hnv]⟩
  | false =>
    simp only [applyNumberFilter, hnv, getPropE, hp,
      Bool.false_eq_true, if_false, exceptBind_ok, exceptPure_eq_ok]
    split
    · exact ⟨false, rfl⟩
    · split <;> exact ⟨_, rfl⟩

theorem applyDateFilter_ok (value : JSVal) (op : String) (pv : JSVal)
    (hp : isNullish pv = false) :
    ∃ b, applyDateFilter value op pv = .ok b := by
  cases hnv : isNullish value with
  | true => exact ⟨false, by simp [applyDateFilter, hnv]⟩
  | false =>
    simp only [applyDateFilter, hnv, getPropE, hp,
      Bool.false_eq_true, if_false, exceptBind_ok, exceptPure_eq_ok]
    split
    · exact ⟨false, rfl⟩
    · split <;> exact ⟨_, rfl⟩

theorem applyAmountFilter_ok (value : JSVal) (op : String) (pv : JSVal)
    (hp : isNullish pv = false) :
    ∃ b, applyAmountFilter value op pv = .ok b := by
  cases hnv : isNullish value with
  | true => exact ⟨false, by simp [applyAmountFilter, hnv]⟩
  | false =>
    simp only [applyAmountFilter, hnv, getPropE, hp,
      Bool.false_eq_true, if_false, exceptBind_ok, exceptPure_eq_ok]
    split
    · exact ⟨false, rfl⟩
    · split <;> exact ⟨_, rfl⟩

theorem applySingleSelectFilter_ok (value : JSVal) (op : String) (pv : JSVal)
    (hp : isNullish pv = false) :
    ∃ b, applySingleSelectFilter value op pv = .ok b := by
  cases hnv : isNullish value with
  | true => exact ⟨false, by simp [applySingleSelectFilter, hnv]⟩
  | false =>
    simp only [applySingleSelectFilter, hnv, getPropE, hp,
      Bool.false_eq_true, if_false, exceptBind_ok, exceptPure_eq_ok]
    split <;> exact ⟨_, rfl⟩

theorem applyMultiSelectFilter_ok (value : JSVal) (op : String) (pv : JSVal)
    (hp : isNullish pv = false) :
    ∃ b, applyMultiSelectFilter value op pv = .ok b := by
  cases value with
  | vArr xs =>
    simp only [applyMultiSelectFilter, getPropE, hp,
      Bool.false_eq_true, if_false, exceptBind_ok, exceptPure_eq_ok]
    cases hfv : getProp pv "values" with
    | vArr vs =>
      by_cases hlen : vs.length = 0
      · exact ⟨false, by simp [hlen]⟩
      · simp only [hlen, if_false]
        split <;> exact ⟨_, rfl⟩
    | vUndefined => exact ⟨false, rfl⟩
    | vNull => exact ⟨false, rfl⟩
    | vBool b => exact ⟨false, rfl⟩
    | vNum n => exact ⟨false, rfl⟩
    | vStr s => exact ⟨false, rfl⟩
    | vObj fs => exact ⟨false, rfl⟩
  | vUndefined => exact ⟨false, rfl⟩
  | vNull => exact ⟨false, rfl⟩
  | vBool b => exact ⟨false, rfl⟩
  | vNum n => exact ⟨false, rfl⟩
  | vStr s => exact ⟨false, rfl⟩
  | vObj fs => exact ⟨false, rfl⟩

theorem applyBooleanFilter_ok (value : JSVal) (op : String) (pv : JSVal)
    (hp : isNullish pv = false) :
    ∃ b, applyBooleanFilter value op pv = .ok b := by
  cases hnv : isNullish value with
  | true => exact ⟨false, by simp [applyBooleanFilter, hnv]⟩
  | false =>
    simp only [applyBooleanFilter, hnv, getPropE, hp,
      Bool.false_eq_true, if_false, exceptBind_ok, exceptPure_eq_ok]
    split <;> exact ⟨_, rfl⟩

/-- Evaluating one condition cannot throw provided the condition's payload
is an object-like value (not null/undefined) and, for the text family, its
`value` property is a string. -/
theorem applyFilterCondition_ok (c : FilterCondition)
    (hp : isNullish c.value = false)
    (htext : c.fieldType = "text" → ∃ s, getProp c.value "value" = .vStr s)
    (employee : JSVal) (fieldPath : Option String) :
    ∃ b, applyFilterCondition employee c fieldPath = .ok b := by
  simp only [applyFilterCondition]
  split
  · rename_i hft
    obtain ⟨s, hs⟩ := htext hft
    exact applyTextFilter_ok _ _ _ s hp hs
  · exact applyNumberFilter_ok _ _ _ hp
  · exact applyDateFilter_ok _ _ _ hp
  · exact applyAmountFilter_ok _ _ _ hp
  · exact applySingleSelectFilter_ok _ _ _ hp
  · exact applyMultiSelectFilter_ok _ _ _ hp
  · exact applyBooleanFilter_ok _ _ _ hp
  · exact ⟨false, rfl⟩

/-- C2 counterexample.  A text condition whose payload is an object without
a string `value` property makes the evaluation path throw (the unguarded
`filterValue.value.toLowerCase()` in `applyTextFilter`), and the thrown
exception escapes `filterRecords`; the validator — whose body is wrapped in
`try/catch` — returns `false` for the same condition instead of throwing. -/
theorem text_filter_throws_on_malformed_payload :
    applyFilterCondition (.vObj [("role", .vStr "dev")])
      ⟨"c1", "role", "contains", "text", .vObj []⟩ none = .error ()
    ∧ filterEmployees [.vObj [("role", .vStr "dev")]]
        [⟨"c1", "role", "contains", "text", .vObj []⟩] [] = .error ()
    ∧ isValidFilterCondition ⟨"c1", "role", "contains", "text", .vObj []⟩ = false :=
  ⟨rfl, rfl, rfl⟩

/-- C2 as amended.  For any condition set in which every payload is
non-null and every text payload carries a string `value`, no call into the
core throws: single-condition evaluation always returns a boolean,
`filterRecords` always returns a record list, and — for arbitrary, even
malformed, conditions — any fault inside the validator's body degrades to
the boolean `false` result of `isValidCondition`. -/
theorem filterEngine_no_throw_on_wellshaped_payloads
    (conditions : List FilterCondition)
    (hall : ∀ c ∈ conditions, isNullish c.value = false ∧
      (c.fieldType = "text" → ∃ s, getProp c.value "value" = .vStr s)) :
    (∀ c ∈ conditions, ∀ employee fieldPath,
      ∃ b, applyFilterCondition employee c fieldPath = .ok b)
    ∧ (∀ records fieldPaths,
      ∃ out, filterEmployees records conditions fieldPaths = .ok out)
    ∧ (∀ c : FilterCondition, isValidBody c = .error () →
      isValidFilterCondition c = false) := by
  refine ⟨?_, ?_, ?_⟩
  · intro c hc employee fieldPath
    exact applyFilterCondition_ok c (hall c hc).1 (hall c hc).2 employee fieldPath
  · intro records fieldPaths
    cases conditions with
    | nil => exact ⟨records, rfl⟩
    | cons c cs =>
      rw [filterEmployees_cons]
      refine ⟨_, filterME_eq_filter _ records (fun r _ => ?_)⟩
      exact allME_total _ _ (fun cond hcond =>
        applyFilterCondition_ok cond (hall cond hcond).1 (hall cond hcond).2 r _)
  · intro c hbody
    simp [isValidFilterCondition, hbody]

/-- Closed instance of the amended C2, at a condition set containing every
field-type tag with a well-shaped payload. -/
theorem filterEngine_no_throw_witness :
    (∀ c ∈ [(⟨"c1", "role", "contains", "text",
        JSVal.vObj [("value", JSVal.vStr "dev")]⟩ : FilterCondition),
      ⟨"c2", "projects", "greaterThan", "number",
        JSVal.vObj [("value", JSVal.vNum (.int 2))]⟩],
      ∀ employee fieldPath,
      ∃ b, applyFilterCondition employee c fieldPath = .ok b)
    ∧ (∀ records fieldPaths,
      ∃ out, filterEmployees records
        [(⟨"c1", "role", "contains", "text",
            JSVal.vObj [("value", JSVal.vStr "dev")]⟩ : FilterCondition),
          ⟨"c2", "projects", "greaterThan", "number",
            JSVal.vObj [("value", JSVal.vNum (.int 2))]⟩] fieldPaths = .ok out)
    ∧ (∀ c : FilterCondition, isValidBody c = .error () →
      isValidFilterCondition c = false) :=
  filterEngine_no_throw_on_wellshaped_payloads _ (by
    intro c hc
    simp only [List.mem_cons, List.not_mem_nil, or_false] at hc
    rcases hc with rfl | rfl
    · exact ⟨rfl, fun _ => ⟨"dev", rfl⟩⟩
    · exact ⟨rfl, fun h => by simp at h⟩)

/-- `Array.prototype.includes` decides membership. -/
theorem jsIncludes_iff (xs : List JSVal) (v : JSVal) :
    jsIncludes xs v = true ↔ v ∈ xs := by
  simp [jsIncludes, List.any_eq_true, jsEq_iff]

/-- C9.  For the text family both sides are coerced to lowercase strings
before comparison, so matching is case-insensitive for all five operators:
`equals` holds iff the lowercase forms are equal, `contains` iff the
filter's lowercase value occurs as a substring of the record's lowercase
string, `startsWith` and `endsWith` test the corresponding prefix/suffix,
and `doesNotContain` is the exact negation of `contains`. -/
theorem applyTextFilter_case_insensitive_ops (value : JSVal) (s : String)
    (hnn : isNullish value = false) :
    (applyTextFilter value "equals" (.vObj [("value", .vStr s)])
      = .ok (strToLower (jsToString value) == strToLower s))
    ∧ (applyTextFilter value "contains" (.vObj [("value", .vStr s)]) = .ok true
      ↔ ∃ pre post, (strToLower (jsToString value)).data
          = pre ++ (strToLower s).data ++ post)
    ∧ (applyTextFilter value "startsWith" (.vObj [("value", .vStr s)]) = .ok true
      ↔ ∃ rest, (strToLower (jsToString value)).data = (strToLower s).data ++ rest)
    ∧ (applyTextFilter value "endsWith" (.vObj [("value", .vStr s)]) = .ok true
      ↔ ∃ pre, (strToLower (jsToString value)).data = pre ++ (strToLower s).data)
    ∧ (∀ b, applyTextFilter value "contains" (.vObj [("value", .vStr s)]) = .ok b
      → applyTextFilter value "doesNotContain" (.vObj [("value", .vStr s)])
          = .ok !b) := by
  have h1 : getPropE (JSVal.vObj [("value", .vStr s)]) "value" = .ok (.vStr s) := rfl
  have hred : ∀ op : String, applyTextFilter value op (.vObj [("value", .vStr s)])
      = (match op with
        | "equals" => .ok (strToLower (jsToString value) == strToLower s)
        | "contains" =>
          .ok (strIncludes (strToLower (jsToString value)) (strToLower s))
        | "startsWith" =>
          .ok (strStarts (strToLower (jsToString value)) (strToLower s))
        | "endsWith" => .ok (strEnds (strToLower (jsToString value)) (strToLower s))
        | "doesNotContain" =>
          .ok (!strIncludes (strToLower (jsToString value)) (strToLower s))
        | _ => .ok false) := by
    intro op
    simp [applyTextFilter, hnn, h1, jsToLowerCase]
  have hcont : applyTextFilter value "contains" (.vObj [("value", .vStr s)])
      = .ok (strIncludes (strToLower (jsToString value)) (strToLower s)) :=
    hred "contains"
  have hsw : applyTextFilter value "startsWith" (.vObj [("value", .vStr s)])
      = .ok (strStarts (strToLower (jsToString value)) (strToLower s)) :=
    hred "startsWith"
  have hew : applyTextFilter value "endsWith" (.vObj [("value", .vStr s)])
      = .ok (strEnds (strToLower (jsToString value)) (strToLower s)) :=
    hred "endsWith"
  refine ⟨hred "equals", ?_, ?_, ?_, ?_⟩
  · rw [hcont, Except.ok.injEq]
    exact strIncludes_iff _ _
  · rw [hsw, Except.ok.injEq]
    exact strStarts_iff _ _
  · rw [hew, Except.ok.injEq]
    exact strEnds_iff _ _
  · intro b hb
    rw [hcont] at hb
    injection hb with hb
    rw [← hb]
    exact hred "doesNotContain"

/-- Closed instance of C9: the spec's example, `"engineer"` matches
`"Senior Engineer"` case-insensitively under `contains`. -/
theorem applyTextFilter_case_insensitive_ops_witness :
    applyTextFilter (.vStr "Senior Engineer") "contains"
      (.vObj [("value", .vStr "engineer")]) = .ok true :=
  (applyTextFilter_case_insensitive_ops (.vStr "Senior Engineer") "engineer"
    rfl).2.1.mpr ⟨"senior ".data, [], by decide⟩

/-- C4.  For the multiSelect family on a record array and a non-empty
filter value list, `in` is true iff the two share an element (non-empty
intersection under SameValueZero) and `notIn` is the exact negation of `in`
on the same two inputs. -/
theorem applyMultiSelectFilter_in_notIn (xs vs : List JSVal) (pv : JSVal)
    (hp : isNullish pv = false) (hvs : getProp pv "values" = .vArr vs)
    (hne : vs ≠ []) :
    (applyMultiSelectFilter (.vArr xs) "in" pv = .ok true
      ↔ ∃ v, v ∈ vs ∧ v ∈ xs)
    ∧ (∀ b, applyMultiSelectFilter (.vArr xs) "in" pv = .ok b →
        applyMultiSelectFilter (.vArr xs) "notIn" pv = .ok !b) := by
  have hred : ∀ op : String, applyMultiSelectFilter (.vArr xs) op pv
      = (match op with
        | "in" => .ok (vs.any (fun selectedValue => jsIncludes xs selectedValue))
        | "notIn" =>
          .ok (!vs.any (fun selectedValue => jsIncludes xs selectedValue))
        | _ => .ok false) := by
    intro op
    simp [applyMultiSelectFilter, getPropE, hp, hvs, hne]
  have hin : applyMultiSelectFilter (.vArr xs) "in" pv
      = .ok (vs.any (fun selectedValue => jsIncludes xs selectedValue)) :=
    hred "in"
  constructor
  · rw [hin, Except.ok.injEq, List.any_eq_true]
    simp [jsIncludes_iff]
  · intro b hb
    rw [hin] at hb
    injection hb with hb
    rw [← hb]
    exact hred "notIn"

/-- Closed instance of C4: the spec's example, skills `["React","SQL"]`
against `notIn ["Java","Python"]` matches because the intersection is
empty. -/
theorem applyMultiSelectFilter_in_notIn_witness :
    applyMultiSelectFilter (.vArr [.vStr "React", .vStr "SQL"]) "notIn"
      (.vObj [("values", .vArr [.vStr "Java", .vStr "Python"])]) = .ok true :=
  (applyMultiSelectFilter_in_notIn [.vStr "React", .vStr "SQL"]
    [.vStr "Java", .vStr "Python"]
    (.vObj [("values", .vArr [.vStr "Java", .vStr "Python"])])
    rfl rfl (List.cons_ne_nil _ _)).2 false rfl

/-- C8.  For a date-typed condition, the validator accepts exactly when
both bounds parse as valid calendar dates and the start is not after the
end; in particular the spec's reversed range (2024-05-01 .. 2024-01-01) is
reported invalid. -/
theorem isValidFilterCondition_date_range :
    (∀ i f op ss es : String,
      isValidFilterCondition ⟨i, f, op, "date",
          .vObj [("startDate", .vStr ss), ("endDate", .vStr es)]⟩ = true
      ↔ ∃ ts te : Int, parseDateString ss = .int ts
          ∧ parseDateString es = .int te ∧ ts ≤ te)
    ∧ isValidFilterCondition ⟨"c1", "joinDate", "between", "date",
        .vObj [("startDate", .vStr "2024-05-01"),
          ("endDate", .vStr "2024-01-01")]⟩ = false := by
  constructor
  · intro i f op ss es
    have h2 : isValidFilterCondition ⟨i, f, op, "date",
        .vObj [("startDate", .vStr ss), ("endDate", .vStr es)]⟩
        = (!jnIsNaN (parseDateString ss) && !jnIsNaN (parseDateString es)
            && jnLe (parseDateString ss) (parseDateString es)) := rfl
    rw [h2]
    cases hs : parseDateString ss with
    | nan => simp [jnIsNaN]
    | int ts =>
      cases he : parseDateString es with
      | nan => simp [jnIsNaN]
      | int te => simp [jnIsNaN, jnLe]
  · rfl

/-- C10.  The validator reads only a condition's field-type tag and value
payload: two conditions agreeing on those validate identically regardless
of operator, field key or id, and a well-formed payload with an operator
that is not permitted for its field type still validates as true. -/
theorem isValidFilterCondition_operator_independent (c1 c2 : FilterCondition)
    (hft : c1.fieldType = c2.fieldType) (hv : c1.value = c2.value) :
    isValidFilterCondition c1 = isValidFilterCondition c2
    ∧ isValidFilterCondition ⟨"c9", "name", "between", "text",
        .vObj [("value", .vStr "x")]⟩ = true := by
  constructor
  · obtain ⟨i1, f1, o1, t1, v1⟩ := c1
    obtain ⟨i2, f2, o2, t2, v2⟩ := c2
    dsimp only at hft hv
    subst hft
    subst hv
    rfl
  · rfl

/-- Closed instance of C10: same text payload, different id, field and
operator (one of them not a text operator) — same validation verdict. -/
theorem isValidFilterCondition_operator_independent_witness :
    isValidFilterCondition ⟨"a", "name", "contains", "text",
        .vObj [("value", .vStr "hi")]⟩
      = isValidFilterCondition ⟨"b", "role", "between", "text",
        .vObj [("value", .vStr "hi")]⟩
    ∧ isValidFilterCondition ⟨"c9", "name", "between", "text",
        .vObj [("value", .vStr "x")]⟩ = true :=
  isValidFilterCondition_operator_independent _ _ rfl rfl

/-- Evaluation of every condition of a list on one record, as performed per
record by the filter executor. -/
def evaluatesAll (fieldPaths : List (String × String))
    (conditions : List FilterCondition) (employee : JSVal) : Except Unit Bool :=
  allME (fun condition =>
    applyFilterCondition employee condition (fieldPaths.lookup condition.field))
    conditions

/-- C1.  On a non-empty condition list (and whenever evaluation completes
without a thrown exception), `filterRecords` returns exactly the records on
which every condition evaluates true — AND across all conditions — and the
output is the input sequence restricted to the matches (a sublist: original
relative order, no reordering). -/
theorem filterEmployees_and_semantics (records : List JSVal)
    (conditions : List FilterCondition) (fieldPaths : List (String × String))
    (hne : conditions ≠ [])
    (htot : ∀ r ∈ records, ∃ b, evaluatesAll fieldPaths conditions r = .ok b) :
    filterEmployees records conditions fieldPaths
      = .ok (records.filter (fun r => okTrue (evaluatesAll fieldPaths conditions r)))
    ∧ (∀ r, okTrue (evaluatesAll fieldPaths conditions r) = true
        ↔ ∀ c ∈ conditions,
            applyFilterCondition r c (fieldPaths.lookup c.field) = .ok true)
    ∧ (records.filter
        (fun r => okTrue (evaluatesAll fieldPaths conditions r))).Sublist records := by
  refine ⟨?_, ?_, List.filter_sublist _⟩
  · cases conditions with
    | nil => exact absurd rfl hne
    | cons c cs =>
      rw [filterEmployees_cons]
      exact filterME_eq_filter _ records htot
  · intro r
    rw [okTrue_eq_true_iff]
    exact allME_eq_ok_true_iff _ _

/-- Closed instance of C1: a two-record collection filtered by one text
condition keeps exactly the matching record, in place. -/
theorem filterEmployees_and_semantics_witness :
    filterEmployees
        [JSVal.vObj [("role", JSVal.vStr "Senior Engineer")],
          JSVal.vObj [("role", JSVal.vStr "Designer")]]
        [⟨"c1", "role", "contains", "text",
          JSVal.vObj [("value", JSVal.vStr "engineer")]⟩] []
      = .ok (([JSVal.vObj [("role", JSVal.vStr "Senior Engineer")],
          JSVal.vObj [("role", JSVal.vStr "Designer")]]).filter
          (fun r => okTrue (evaluatesAll []
            [⟨"c1", "role", "contains", "text",
              JSVal.vObj [("value", JSVal.vStr "engineer")]⟩] r)))
    ∧ (∀ r, okTrue (evaluatesAll []
          [⟨"c1", "role", "contains", "text",
            JSVal.vObj [("value", JSVal.vStr "engineer")]⟩] r) = true
        ↔ ∀ c ∈ [(⟨"c1", "role", "contains", "text",
            JSVal.vObj [("value", JSVal.vStr "engineer")]⟩ : FilterCondition)],
            applyFilterCondition r c
              (([] : List (String × String)).lookup c.field) = .ok true)
    ∧ (([JSVal.vObj [("role", JSVal.vStr "Senior Engineer")],
          JSVal.vObj [("role", JSVal.vStr "Designer")]]).filter
          (fun r => okTrue (evaluatesAll []
            [⟨"c1", "role", "contains", "text",
              JSVal.vObj [("value", JSVal.vStr "engineer")]⟩] r))).Sublist
        [JSVal.vObj [("role", JSVal.vStr "Senior Engineer")],
          JSVal.vObj [("role", JSVal.vStr "Designer")]] :=
  filterEmployees_and_semantics _ _ _ (by simp) (by
    intro r hr
    simp only [List.mem_cons, List.not_mem_nil, or_false] at hr
    rcases hr with rfl | rfl
    · exact ⟨true, rfl⟩
    · exact ⟨false, rfl⟩)

/-- C3.  For the date family's `between`, the start bound is normalized to
00:00:00.000 and the end bound to 23:59:59.999 of their calendar days and
the range test is inclusive; hence any record timestamp falling on the
start bound's or the end bound's calendar day (for an ordered range)
matches. -/
theorem applyDateFilter_between_boundary_days (value : JSVal) (ss es : String)
    (t s e : Int)
    (hnn : isNullish value = false)
    (hv : jsNewDate value = .int t)
    (hs : parseDateString ss = .int s)
    (he : parseDateString es = .int e)
    (hse : s ≤ e)
    (hday : dayFloor t = dayFloor s ∨ dayFloor t = dayFloor e) :
    applyDateFilter value "between"
        (.vObj [("startDate", .vStr ss), ("endDate", .vStr es)])
      = .ok (decide (dayFloor s ≤ t ∧ t ≤ dayFloor e + (msPerDay - 1)))
    ∧ applyDateFilter value "between"
        (.vObj [("startDate", .vStr ss), ("endDate", .vStr es)])
      = .ok true := by
  have h1 : getPropE (JSVal.vObj [("startDate", .vStr ss), ("endDate", .vStr es)])
      "startDate" = .ok (.vStr ss) := rfl
  have h2 : getPropE (JSVal.vObj [("startDate", .vStr ss), ("endDate", .vStr es)])
      "endDate" = .ok (.vStr es) := rfl
  have h3 : jsNewDate (.vStr ss) = parseDateString ss := rfl
  have h4 : jsNewDate (.vStr es) = parseDateString es := rfl
  have hred : applyDateFilter value "between"
      (.vObj [("startDate", .vStr ss), ("endDate", .vStr es)])
      = .ok (jnLe (jnStartOfDay (.int s)) (.int t)
          && jnLe (.int t) (jnEndOfDay (.int e))) := by
    simp [applyDateFilter, hnn, h1, h2, hv, h3, h4, hs, he, jnIsNaN]
  have hm := dayFloor_mono hse
  have hfl := dayFloor_le t
  have hla := le_dayFloor_add t
  have hle1 : dayFloor s ≤ t := by rcases hday with h | h <;> omega
  have hle2 : t ≤ dayFloor e + (msPerDay - 1) := by rcases hday with h | h <;> omega
  constructor
  · rw [hred]
    congr 1
    simp [jnStartOfDay, jnEndOfDay, jnLe, Bool.decide_and]
  · rw [hred]
    simp [jnStartOfDay, jnEndOfDay, jnLe, hle1, hle2]

/-- Closed instance of C3: the spec's example, a record dated 2023-06-15
matches `between 2023-06-15 .. 2023-06-15` (same-day inclusive). -/
theorem applyDateFilter_between_boundary_days_witness :
    applyDateFilter (.vStr "2023-06-15") "between"
      (.vObj [("startDate", .vStr "2023-06-15"),
        ("endDate", .vStr "2023-06-15")]) = .ok true :=
  (applyDateFilter_between_boundary_days (.vStr "2023-06-15")
    "2023-06-15" "2023-06-15" 1686787200000 1686787200000 1686787200000
    rfl rfl rfl rfl le_rfl (Or.inl rfl)).2

